import Mathlib

/-!
Verification of the channel layer of `src/channel.ts`: the file-provider
channel (path remapping, per-session watchers) and the extension environment
channel (concurrent extension scan and merge pipeline).

The TypeScript source is shallowly embedded:

* a JavaScript `Map` is an insertion-ordered association list
  (`mapGet`, `mapSet`, `mapDelete`); `Map.set` on an existing key updates the
  entry in place (keeping its insertion position), otherwise it appends;
* external collaborators (the disk provider's `watch`, `JSON.parse`,
  `ExtensionScanner.scanExtensions`, `ExtensionIdentifier.toKey`) are oracles
  passed in as parameters; a fallible external call is an `Except`;
* a rejected promise / thrown exception is `Except.error`;
* `Promise.all` resolves to the results listed by task index once every task
  has completed, and rejects as soon as any task rejects.
-/

namespace ChannelTS

/-- Model of a JavaScript `Map` lookup (`m.get(k)` / `m.has(k)`). -/
def mapGet {κ β : Type} [DecidableEq κ] : List (κ × β) → κ → Option β
  | [], _ => none
  | p :: rest, k => if p.1 = k then some p.2 else mapGet rest k

/-- Model of `m.set(k, v)`: update in place when the key is present
(keeping insertion order), append otherwise. -/
def mapSet {κ β : Type} [DecidableEq κ] (m : List (κ × β)) (k : κ) (v : β) : List (κ × β) :=
  if (mapGet m k).isSome then
    m.map (fun p => if p.1 = k then (k, v) else p)
  else
    m ++ [(k, v)]

/-- Model of `m.delete(k)`. -/
def mapDelete {κ β : Type} [DecidableEq κ] (m : List (κ × β)) (k : κ) : List (κ × β) :=
  m.filter (fun p => decide (p.1 ≠ k))

/-- `URI` components as used by the channel (`UriComponents` in the source). -/
structure UriComponents where
  scheme : String
  authority : String
  path : String
  query : String
  fragment : String
deriving DecidableEq

/-- Model of `URI.file(p)`: a `file`-scheme URI whose path is `p`.
(The external constructor also normalizes slashes and drive letters; the
channel only ever reads the path back, so the model keeps `p` as given.) -/
def uriFile (p : String) : UriComponents :=
  { scheme := "file", authority := "", path := p, query := "", fragment := "" }

/-- Model of `URI.from(components)`: the components themselves. -/
def uriOf (r : UriComponents) : UriComponents := r

/-- `s.indexOf(pre) === 0`, i.e. `pre` is a prefix of `s` (on the character
sequence, matching JS string semantics). -/
def strStartsWith (s pre : String) : Bool :=
  pre.data.isPrefixOf s.data

/-- Drop the first `n` characters of `s` (JS `slice`-style). -/
def strDrop (s : String) (n : Nat) : String :=
  ⟨s.data.drop n⟩

/-- Model of `path.replace(/^\/static/, "")`: the regex is anchored, so it
removes the 7-character prefix when present and is the identity otherwise. -/
def stripStatic (p : String) : String :=
  if strStartsWith p "/static" then strDrop p 7 else p

/-- Outcome of the external `JSON.parse(query)` followed by the
`query.requestResourcePath` access, as one oracle:
`Except.error` = the `try` block threw (malformed JSON, or a primitive parse
result whose property access threw); `Except.ok (some p)` = the parsed object
carried a truthy `requestResourcePath` string `p`; `Except.ok none` =
parse succeeded but the field is absent or falsy. -/
def QueryParseOracle : Type := String → Except String (Option String)

/-- `FileProviderChannel.transform` (src/channel.ts:165-179).  The codomain is
`Except`: an uncaught exception in the body would surface as `Except.error`;
the `try/catch` of the source is the `.error` match arm, which falls through
to `URI.from(resource)` ("Carry on."). -/
def transform (appRoot : String) (parseQuery : QueryParseOracle)
    (resource : UriComponents) : Except String UriComponents :=
  if strStartsWith resource.path "/static" then
    Except.ok (uriFile (appRoot ++ stripStatic resource.path))
  else if resource.path = "/vscode-resource" ∧ resource.query ≠ "" then
    match parseQuery resource.query with
    | Except.ok (some p) => Except.ok (uriFile p)
    | Except.ok none => Except.ok (uriOf resource)
    | Except.error _ => Except.ok (uriOf resource)
  else
    Except.ok (uriOf resource)

/-- Watch options forwarded verbatim to the external disk provider. -/
structure IWatchOptions where
  recursive : Bool
  excludes : List String
deriving DecidableEq

/-- Error taxonomy of the channel calls.  The source throws an untyped
`TypeError` when the non-null assertion `map.get(x)!` dereferences a missing
entry; the data-model contract classifies that failure, which arises exactly
from the absent key, as `notFound`. -/
inductive ChanErr where
  | notFound
deriving DecidableEq

/-- State of one `Watcher` (src/channel.ts:26-43).  `watches` is the
`Map<number, IDisposable>`; a subscription handle returned by the external
`DiskFileSystemProvider.watch` is modelled as a fresh numeric id drawn from
`nextHandle`; `disposed` logs every `dispose()` call made on a handle, in
order, so that leaks and double-releases are observable. -/
structure WatcherState where
  watches : List (Nat × Nat)
  nextHandle : Nat
  disposed : List Nat
deriving DecidableEq

namespace Watcher

/-- `Watcher._watch(req, resource, opts)` (src/channel.ts:35-37):
`this.watches.set(req, this.watch(resource, opts))`.  The external
`this.watch` call consumes `resource` and `opts` and returns a fresh
disposable, modelled as the id `w.nextHandle`. -/
def watchNew (w : WatcherState) (req : Nat) (_resource : UriComponents)
    (_opts : IWatchOptions) : WatcherState :=
  { w with
    watches := mapSet w.watches req w.nextHandle
    nextHandle := w.nextHandle + 1 }

/-- `Watcher.unwatch(req)` (src/channel.ts:39-42):
`this.watches.get(req)!.dispose(); this.watches.delete(req)`.  A missing
entry makes the non-null assertion dereference `undefined` and throw. -/
def unwatch (w : WatcherState) (req : Nat) : Except ChanErr WatcherState :=
  match mapGet w.watches req with
  | none => Except.error ChanErr.notFound
  | some h =>
      Except.ok
        { w with
          watches := mapDelete w.watches req
          disposed := w.disposed ++ [h] }

/-- `Watcher.dispose()` (src/channel.ts:29-33): dispose every stored handle,
then clear the map (`super.dispose()` is external). -/
def dispose (w : WatcherState) : WatcherState :=
  { w with
    watches := []
    disposed := w.disposed ++ w.watches.map Prod.snd }

end Watcher

/-- State of the `FileProviderChannel`'s watcher registry
(`watchers: Map<string, Watcher>`, src/channel.ts:47). -/
structure FileChannelState where
  watchers : List (String × WatcherState)
deriving DecidableEq

/-- `FileProviderChannel.unwatch(session, req)` (src/channel.ts:161-163):
`this.watchers.get(session)!.unwatch(req)`.  A missing session makes the
non-null assertion throw; otherwise the per-session `Watcher.unwatch` runs
(and its failure rejects the call's promise). -/
def FileProviderChannel.unwatchCmd (st : FileChannelState) (session : String)
    (req : Nat) : Except ChanErr FileChannelState :=
  match mapGet st.watchers session with
  | none => Except.error ChanErr.notFound
  | some w =>
      (Watcher.unwatch w req).map
        (fun w2 => { st with watchers := mapSet st.watchers session w2 })

/-- The fields of `IExtensionDescription` the channel reads: the identifier
(fed to the external `ExtensionIdentifier.toKey` normalizer) and
`extensionLocation.fsPath`; the provenance flags are set by the scanner. -/
structure IExtensionDescription where
  identifier : String
  locationFsPath : String
  isBuiltin : Bool
  isUnderDevelopment : Bool
deriving DecidableEq

/-- Concrete model of the external `ExtensionIdentifier.toKey` (the
case-insensitive identity normalizer); the merge theorems hold for any
normalizer, this instance is used by concrete witnesses. -/
def extensionIdToKey (s : String) : String := ⟨s.data.map Char.toLower⟩

/-- `Promise.all(tasks)`: resolves to the results in task-index order once
every task has resolved, rejects when some task rejects.  (In the event of
several rejections the earliest in time wins; the model picks the first in
index order — the theorems below never depend on which error is reported,
only on whether one is.) -/
def promiseAll {ε α : Type} : List (Except ε α) → Except ε (List α)
  | [] => Except.ok []
  | Except.error e :: _ => Except.error e
  | Except.ok a :: rest => (promiseAll rest).map (fun l => a :: l)

/-- Per-root outcome of the external
`ExtensionScanner.scanExtensions(new ExtensionScannerInput(..., path,
isBuiltin, isUnderDevelopment, ...), log)`: the oracle receives the two
flags and the root path (version, commit, locale, devmode and translations
are fixed per run and folded into the oracle). -/
def ScannerOracle : Type :=
  Bool → Bool → String → Except String (List IExtensionDescription)

/-- The environment paths `scanExtensions` reads (src/channel.ts:243,247). -/
structure EnvPaths where
  builtinExtensionsPath : String
  extraBuiltinExtensionPaths : List String
  extensionsPath : String
  extraExtensionPaths : List String
deriving DecidableEq

/-- Root list of the builtin group, in root-list order. -/
def builtinPaths (env : EnvPaths) : List String :=
  env.builtinExtensionsPath :: env.extraBuiltinExtensionPaths

/-- Root list of the installed group, in root-list order. -/
def installedPaths (env : EnvPaths) : List String :=
  env.extensionsPath :: env.extraExtensionPaths

/-- `scanMultiple(isBuiltin, isUnderDevelopment, paths)`
(src/channel.ts:227-240): `Promise.all(paths.map((path) => scan(...)))`. -/
def scanMultiple (scanner : ScannerOracle) (isBuiltin isUnderDevelopment : Bool)
    (paths : List String) : Except String (List (List IExtensionDescription)) :=
  promiseAll (paths.map (scanner isBuiltin isUnderDevelopment))

/-- One step of the merge loop body (src/channel.ts:254-262): compute the
normalized id, log a warning when the accumulator already holds that id
(`${oldPath} has been overridden ${newPath}`), then `uniqueExtensions.set`. -/
def mergeStep (toKey : String → String)
    (acc : List (String × IExtensionDescription) × List String)
    (extension : IExtensionDescription) :
    List (String × IExtensionDescription) × List String :=
  let id := toKey extension.identifier
  let warns :=
    match mapGet acc.1 id with
    | some old =>
        acc.2 ++ [old.locationFsPath ++ " has been overridden " ++ extension.locationFsPath]
    | none => acc.2
  (mapSet acc.1 id extension, warns)

/-- The last descriptor of `descs` whose normalized identifier is `k`
(specification device for the merge's override precedence). -/
def lastWithKey (toKey : String → String) (k : String) :
    List IExtensionDescription → Option IExtensionDescription
  | [] => none
  | d :: ds =>
      match lastWithKey toKey k ds with
      | some e => some e
      | none => if toKey d.identifier = k then some d else none

/-- The merge of src/channel.ts:251-265 over the flattened descriptor
sequence: fold `mergeStep` from an empty `Map`, return
`Array.from(uniqueExtensions.values())` (insertion order) plus the warning
log. -/
def mergeAll (toKey : String → String) (descs : List IExtensionDescription) :
    List IExtensionDescription × List String :=
  let folded := descs.foldl (mergeStep toKey) ([], [])
  (folded.1.map Prod.snd, folded.2)

/-- The pure tail of `scanExtensions` applied to the two groups' per-root
outcomes: `Promise.all([scanBuiltin(), scanInstalled()]).then(merge)`
(src/channel.ts:250-266).  Each group is itself a `Promise.all` over its
roots; any rejection propagates (there is no catch in the source), and the
merge iterates builtin-group results first, then installed, each in
root-list order. -/
def scanFromOutcomes (toKey : String → String)
    (builtinOutcomes installedOutcomes : List (Except String (List IExtensionDescription))) :
    Except String (List IExtensionDescription × List String) :=
  match promiseAll builtinOutcomes, promiseAll installedOutcomes with
  | Except.error e, _ => Except.error e
  | Except.ok _, Except.error e => Except.error e
  | Except.ok b, Except.ok i => Except.ok (mergeAll toKey ((b ++ i).flatten))

/-- `ExtensionEnvironmentChannel.scanExtensions(locale)`
(src/channel.ts:224-267) with the external scanner as an oracle: scan the
builtin roots (flags `true, false`) and the installed roots
(flags `false, true`), then merge. -/
def scanExtensions (toKey : String → String) (env : EnvPaths)
    (scanner : ScannerOracle) :
    Except String (List IExtensionDescription × List String) :=
  scanFromOutcomes toKey
    ((builtinPaths env).map (scanner true false))
    ((installedPaths env).map (scanner false true))

/-!
Completion-schedule model for `Promise.all`.  A run of the task group is a
list of arrivals `(taskIndex, result)` in completion order; `Promise.all`
stores each arrival in the slot of its task index (`assemble`) and resolves
only once every slot is filled (`allSome`).
-/

/-- Fill the result slots of an `n`-task `Promise.all` from the arrivals, in
arrival order; each arrival lands in the slot of its task index. -/
def assemble {α : Type} (n : Nat) (arrivals : List (Nat × α)) : List (Option α) :=
  arrivals.foldl (fun acc p => acc.set p.1 (some p.2)) (List.replicate n none)

/-- All slots filled?  (The combinator resolves only then.) -/
def allSome {α : Type} : List (Option α) → Option (List α)
  | [] => some []
  | none :: _ => none
  | some a :: rest => (allSome rest).map (fun l => a :: l)

/-- The merge stage fed by the slot states of the two groups' `Promise.all`:
`none` while either group still has a pending task, otherwise exactly the
canonical `scanFromOutcomes` merge. -/
def scanMergeFromSlots (toKey : String → String)
    (slotsB slotsI : List (Option (Except String (List IExtensionDescription)))) :
    Option (Except String (List IExtensionDescription × List String)) :=
  match allSome slotsB, allSome slotsI with
  | some bOut, some iOut => some (scanFromOutcomes toKey bOut iOut)
  | _, _ => none

/-- Diagnostic info payload (`IDiagnosticInfo`, external; never produced). -/
structure IDiagnosticInfo where
  dummy : Unit
deriving DecidableEq

/-- `ExtensionEnvironmentChannel.getDiagnosticInfo`
(src/channel.ts:269-271): `throw new Error("not implemented")`. -/
def getDiagnosticInfo : Except String IDiagnosticInfo :=
  Except.error "not implemented"

/-- Result payloads of `ExtensionEnvironmentChannel.call`. -/
inductive EnvCallResult (EnvData : Type) where
  | envData (d : EnvData)
  | diagnosticInfo (d : IDiagnosticInfo)
  | unitResult
deriving DecidableEq

/-- `ExtensionEnvironmentChannel.call` (src/channel.ts:194-205).  The
`getEnvironmentData` branch (environment snapshot plus the external
`transformOutgoingURIs`) is abstracted as the oracle `envData`; the
`getDiagnosticInfo` branch throws via `getDiagnosticInfo`;
`disableTelemetry` resolves with no value; an unknown command throws
`Invalid call`. -/
def envChannelCall {EnvData : Type}
    (envData : String → Except String EnvData)
    (command : String) (langArg : String) :
    Except String (EnvCallResult EnvData) :=
  match command with
  | "getEnvironmentData" => (envData langArg).map EnvCallResult.envData
  | "getDiagnosticInfo" => getDiagnosticInfo.map EnvCallResult.diagnosticInfo
  | "disableTelemetry" => Except.ok EnvCallResult.unitResult
  | c => Except.error ("Invalid call \x22" ++ c ++ "\x22")

/-- Decidable equality of `Except` outcomes, for concrete evaluation. -/
instance exceptDecEq {ε α : Type} [DecidableEq ε] [DecidableEq α] :
    DecidableEq (Except ε α) := fun a b =>
  match a, b with
  | Except.error e, Except.error f =>
      if h : e = f then isTrue (by rw [h])
      else isFalse (by intro c; injection c; exact h (by assumption))
  | Except.error _, Except.ok _ => isFalse (by intro c; exact Except.noConfusion c)
  | Except.ok _, Except.error _ => isFalse (by intro c; exact Except.noConfusion c)
  | Except.ok x, Except.ok y =>
      if h : x = y then isTrue (by rw [h])
      else isFalse (by intro c; injection c; exact h (by assumption))

/-! ### Association-map lemmas -/

theorem mapGet_nil {κ β : Type} [DecidableEq κ] (k : κ) :
    mapGet ([] : List (κ × β)) k = none := rfl

theorem mapGet_append {κ β : Type} [DecidableEq κ] (m₁ m₂ : List (κ × β)) (k : κ) :
    mapGet (m₁ ++ m₂) k =
      match mapGet m₁ k with
      | some v => some v
      | none => mapGet m₂ k := by
  induction m₁ with
  | nil => simp [mapGet]
  | cons p rest ih =>
      by_cases h : p.1 = k
      · simp [mapGet, h]
      · simpa [mapGet, h] using ih

theorem mapGet_eq_none_iff {κ β : Type} [DecidableEq κ] (m : List (κ × β)) (k : κ) :
    mapGet m k = none ↔ ∀ p ∈ m, p.1 ≠ k := by
  induction m with
  | nil => simp [mapGet]
  | cons p rest ih =>
      by_cases h : p.1 = k
      · simp [mapGet, h]
      · simp [mapGet, h, ih]

theorem mapGet_mem {κ β : Type} [DecidableEq κ] {m : List (κ × β)} {k : κ} {v : β}
    (h : mapGet m k = some v) : (k, v) ∈ m := by
  induction m with
  | nil => simp [mapGet] at h
  | cons p rest ih =>
      by_cases hp : p.1 = k
      · simp [mapGet, hp] at h
        have hpv : p = (k, v) := by
          cases p
          simp_all
        rw [← hpv]
        exact List.mem_cons_self _ _
      · simp [mapGet, hp] at h
        exact List.mem_cons_of_mem _ (ih h)

theorem mapSet_of_get_none {κ β : Type} [DecidableEq κ] {m : List (κ × β)} {k : κ}
    (hm : mapGet m k = none) (v : β) : mapSet m k v = m ++ [(k, v)] := by
  unfold mapSet
  rw [hm]
  simp

theorem mapSet_of_get_some {κ β : Type} [DecidableEq κ] {m : List (κ × β)} {k : κ} {w : β}
    (hm : mapGet m k = some w) (v : β) :
    mapSet m k v = m.map (fun p => if p.1 = k then (k, v) else p) := by
  unfold mapSet
  rw [hm]
  simp

theorem mapGet_update_self {κ β : Type} [DecidableEq κ] (m : List (κ × β)) (k : κ) (v : β) :
    mapGet (m.map (fun p => if p.1 = k then (k, v) else p)) k =
      if (mapGet m k).isSome then some v else none := by
  induction m with
  | nil => simp [mapGet]
  | cons p rest ih =>
      by_cases h : p.1 = k
      · simp [mapGet, h]
      · simp [mapGet, h, ih]

theorem mapGet_update_ne {κ β : Type} [DecidableEq κ] (m : List (κ × β)) (k k' : κ) (v : β)
    (hne : k' ≠ k) :
    mapGet (m.map (fun p => if p.1 = k then (k, v) else p)) k' = mapGet m k' := by
  induction m with
  | nil => simp [mapGet]
  | cons p rest ih =>
      by_cases h : p.1 = k
      · have hkk : k ≠ k' := fun hc => hne hc.symm
        simp [mapGet, h, hkk, ih]
      · by_cases h2 : p.1 = k'
        · simp [mapGet, h, h2, hne]
        · simp [mapGet, h, h2, ih]

theorem mapGet_mapSet_self {κ β : Type} [DecidableEq κ] (m : List (κ × β)) (k : κ) (v : β) :
    mapGet (mapSet m k v) k = some v := by
  rcases hm : mapGet m k with _ | w
  · rw [mapSet_of_get_none hm, mapGet_append, hm]
    simp [mapGet]
  · rw [mapSet_of_get_some hm, mapGet_update_self, hm]
    rfl

theorem mapGet_mapSet_ne {κ β : Type} [DecidableEq κ] (m : List (κ × β)) (k k' : κ) (v : β)
    (hne : k' ≠ k) : mapGet (mapSet m k v) k' = mapGet m k' := by
  rcases hm : mapGet m k with _ | w
  · rw [mapSet_of_get_none hm, mapGet_append]
    rcases hm2 : mapGet m k' with _ | u
    · simp [mapGet]
      exact fun hc => hne hc.symm
    · simp
  · rw [mapSet_of_get_some hm]
    exact mapGet_update_ne m k k' v hne

theorem mem_mapSet {κ β : Type} [DecidableEq κ] {m : List (κ × β)} {k : κ} {v : β}
    {p : κ × β} (h : p ∈ mapSet m k v) : p = (k, v) ∨ (p ∈ m ∧ p.1 ≠ k) := by
  rcases hm : mapGet m k with _ | w
  · rw [mapSet_of_get_none hm] at h
    rcases List.mem_append.mp h with h | h
    · right
      exact ⟨h, (mapGet_eq_none_iff m k).mp hm p h⟩
    · left
      simpa using h
  · rw [mapSet_of_get_some hm] at h
    obtain ⟨q, hq, hmap⟩ := List.mem_map.mp h
    by_cases hqk : q.1 = k
    · left
      simp [hqk] at hmap
      exact hmap.symm
    · right
      simp [hqk] at hmap
      subst hmap
      exact ⟨hq, hqk⟩

theorem mapSet_keys {κ β : Type} [DecidableEq κ] (m : List (κ × β)) (k : κ) (v : β) :
    (mapSet m k v).map Prod.fst =
      if (mapGet m k).isSome then m.map Prod.fst else m.map Prod.fst ++ [k] := by
  rcases hm : mapGet m k with _ | w
  · simp [mapSet_of_get_none hm, hm]
  · rw [mapSet_of_get_some hm]
    simp only [hm, Option.isSome_some, if_true, List.map_map]
    refine List.map_congr_left ?_
    intro p _
    by_cases hp : p.1 = k
    · simp [hp, Function.comp]
    · simp [hp, Function.comp]

theorem mapSet_keys_nodup {κ β : Type} [DecidableEq κ] {m : List (κ × β)} (k : κ) (v : β)
    (h : (m.map Prod.fst).Nodup) : ((mapSet m k v).map Prod.fst).Nodup := by
  rw [mapSet_keys]
  rcases hm : mapGet m k with _ | w
  · have hk : k ∉ m.map Prod.fst := by
      intro hc
      obtain ⟨p, hp, hpk⟩ := List.mem_map.mp hc
      exact (mapGet_eq_none_iff m k).mp hm p hp hpk
    simp only [Option.isSome_none, Bool.false_eq_true, if_false]
    refine List.Nodup.append h (List.nodup_singleton k) ?_
    intro a ha hb
    have hak : a = k := by simpa using hb
    subst hak
    exact hk ha
  · simpa using h

theorem mapGet_mapDelete_self {κ β : Type} [DecidableEq κ] (m : List (κ × β)) (k : κ) :
    mapGet (mapDelete m k) k = none := by
  rw [mapGet_eq_none_iff]
  intro p hp
  have := List.of_mem_filter hp
  simpa using this

theorem mem_mapDelete {κ β : Type} [DecidableEq κ] {m : List (κ × β)} {k : κ} {p : κ × β}
    (h : p ∈ mapDelete m k) : p ∈ m ∧ p.1 ≠ k := by
  refine ⟨List.mem_of_mem_filter h, ?_⟩
  have := List.of_mem_filter h
  simpa using this

/-! ### Claims about `transform` (C4, C5, C10) -/

/-- Claim C4: `transform` never throws — for every resource and every outcome
of the webview-resource query parse (including a thrown parse error and a
missing `requestResourcePath` field), it returns some resource. -/
theorem transform_never_throws (appRoot : String) (parseQuery : QueryParseOracle)
    (resource : UriComponents) :
    ∃ u, transform appRoot parseQuery resource = Except.ok u := by
  unfold transform
  by_cases h1 : strStartsWith resource.path "/static"
  · exact ⟨_, by rw [if_pos h1]⟩
  · rw [if_neg h1]
    by_cases h2 : resource.path = "/vscode-resource" ∧ resource.query ≠ ""
    · rw [if_pos h2]
      rcases hpq : parseQuery resource.query with e | q
      · exact ⟨_, rfl⟩
      · rcases q with _ | p
        · exact ⟨_, rfl⟩
        · exact ⟨_, rfl⟩
    · exact ⟨_, by rw [if_neg h2]⟩

/-- Claim C5: for a resource whose path begins with the static-asset prefix
`/static`, `transform` returns a file URI whose local path is the
application root followed by the remainder of the path (the input path with
the 7-character prefix stripped). -/
theorem transform_static_remaps_to_app_root (appRoot : String)
    (parseQuery : QueryParseOracle) (resource : UriComponents)
    (h : strStartsWith resource.path "/static" = true) :
    transform appRoot parseQuery resource =
      Except.ok (uriFile (appRoot ++ strDrop resource.path 7)) := by
  unfold transform stripStatic
  rw [if_pos h, if_pos h]

/-- Witness for C5 at the spec's example `/static/foo/bar`: the local path is
`<appRoot>/foo/bar`. -/
theorem transform_static_remaps_to_app_root_witness :
    transform "/root" (fun _ => Except.error "boom")
        { scheme := "vscode-remote", authority := "a", path := "/static/foo/bar",
          query := "", fragment := "" } =
      Except.ok (uriFile ("/root" ++ strDrop "/static/foo/bar" 7)) ∧
    "/root" ++ strDrop "/static/foo/bar" 7 = "/root/foo/bar" :=
  ⟨transform_static_remaps_to_app_root "/root" (fun _ => Except.error "boom") _ (by decide),
   by decide⟩

/-- Claim C10 (implicit): the static-asset rule matches any path beginning
with the character sequence `/static`, not only paths under the `/static/`
directory: the path `/staticfoo` is remapped to the local file
`<appRoot>foo` (no separating slash) instead of being returned unchanged. -/
theorem transform_static_prefix_matches_loosely :
    transform "/root" (fun _ => Except.error "boom")
        { scheme := "vscode-remote", authority := "a", path := "/staticfoo",
          query := "", fragment := "" } =
      Except.ok (uriFile "/rootfoo") ∧
    uriFile "/rootfoo" ≠
      uriOf { scheme := "vscode-remote", authority := "a", path := "/staticfoo",
              query := "", fragment := "" } := by
  constructor
  · decide
  · decide

/-! ### Claims about the watch session (C6, C7, C9) -/

/-- Claim C6: the `unwatch` command fails whenever no watcher is registered
for the session id or the session holds no subscription for the request id;
the failure (the source's non-null-assertion throw on the missing map entry,
which the data-model contract classifies as `NotFound`) rejects the call. -/
theorem unwatch_fails_on_absent (st : FileChannelState) (session : String) (req : Nat)
    (h : mapGet st.watchers session = none ∨
         ∃ w, mapGet st.watchers session = some w ∧ mapGet w.watches req = none) :
    FileProviderChannel.unwatchCmd st session req = Except.error ChanErr.notFound := by
  rcases h with h | ⟨w, hw, hr⟩
  · unfold FileProviderChannel.unwatchCmd
    rw [h]
  · have hu : Watcher.unwatch w req = Except.error ChanErr.notFound := by
      unfold Watcher.unwatch
      rw [hr]
    unfold FileProviderChannel.unwatchCmd
    rw [hw]
    show (Watcher.unwatch w req).map
        (fun w2 => ({ watchers := mapSet st.watchers session w2 } : FileChannelState)) =
      Except.error ChanErr.notFound
    rw [hu]
    rfl

/-- Witness for C6: on an empty registry, and on a registry whose session has
no subscription for request id 1, `unwatch` rejects with `NotFound`. -/
theorem unwatch_fails_on_absent_witness :
    FileProviderChannel.unwatchCmd { watchers := [] } "s" 1 =
        Except.error ChanErr.notFound ∧
    FileProviderChannel.unwatchCmd { watchers := [("s", ⟨[], 0, []⟩)] } "s" 1 =
        Except.error ChanErr.notFound :=
  ⟨unwatch_fails_on_absent { watchers := [] } "s" 1 (Or.inl (by decide)),
   unwatch_fails_on_absent { watchers := [("s", ⟨[], 0, []⟩)] } "s" 1
     (Or.inr ⟨⟨[], 0, []⟩, by decide, by decide⟩)⟩

/-- Claim C7: `_watch(req, …)` followed by `unwatch(req)` on a request id not
previously present leaves no entry for `req`, and the subscription handle
created by the `_watch` is disposed exactly once and is no longer held by
the session (so no later `unwatch` or session dispose can release it again). -/
theorem addWatch_removeWatch_releases_once (w : WatcherState) (req : Nat)
    (resource : UriComponents) (opts : IWatchOptions)
    (_habsent : mapGet w.watches req = none)
    (hfresh1 : w.nextHandle ∉ w.disposed)
    (hfresh2 : ∀ p ∈ w.watches, p.2 ≠ w.nextHandle) :
    ∃ w2, Watcher.unwatch (Watcher.watchNew w req resource opts) req = Except.ok w2 ∧
      mapGet w2.watches req = none ∧
      w2.disposed.count w.nextHandle = 1 ∧
      ∀ p ∈ w2.watches, p.2 ≠ w.nextHandle := by
  have hget : mapGet (Watcher.watchNew w req resource opts).watches req =
      some w.nextHandle := mapGet_mapSet_self _ _ _
  unfold Watcher.unwatch
  rw [hget]
  refine ⟨_, rfl, ?_, ?_, ?_⟩
  · exact mapGet_mapDelete_self _ _
  · have hz : w.disposed.count w.nextHandle = 0 := List.count_eq_zero.mpr hfresh1
    simp [Watcher.watchNew, List.count_append, hz]
  · intro p hp
    obtain ⟨hp1, hpne⟩ := mem_mapDelete hp
    rcases mem_mapSet hp1 with hcase | ⟨hpm, _⟩
    · exact absurd (by rw [hcase]) hpne
    · exact hfresh2 p hpm

/-- Witness for C7 on an initially empty session. -/
theorem addWatch_removeWatch_releases_once_witness :
    ∃ w2, Watcher.unwatch
        (Watcher.watchNew ⟨[], 0, []⟩ 1 (uriFile "/f") ⟨false, []⟩) 1 = Except.ok w2 ∧
      mapGet w2.watches 1 = none ∧
      w2.disposed.count 0 = 1 ∧
      ∀ p ∈ w2.watches, p.2 ≠ 0 :=
  addWatch_removeWatch_releases_once ⟨[], 0, []⟩ 1 (uriFile "/f") ⟨false, []⟩
    (by decide) (by decide) (by decide)

/-- Claim C9 (implicit): `_watch` on a request id that is already present
silently replaces the stored handle without disposing the previous one: the
dispose log is unchanged, the old handle `h0` no longer appears in the
session's mapping, and neither a later `unwatch(req)` nor a session
`dispose()` ever releases `h0`. -/
theorem rewatch_orphans_previous_handle (w : WatcherState) (req : Nat)
    (resource : UriComponents) (opts : IWatchOptions) (h0 : Nat)
    (_hcur : mapGet w.watches req = some h0)
    (honly : ∀ p ∈ w.watches, p.2 = h0 → p.1 = req)
    (hnew : h0 ≠ w.nextHandle)
    (hnd : h0 ∉ w.disposed) :
    (Watcher.watchNew w req resource opts).disposed = w.disposed ∧
    mapGet (Watcher.watchNew w req resource opts).watches req = some w.nextHandle ∧
    (∀ p ∈ (Watcher.watchNew w req resource opts).watches, p.2 ≠ h0) ∧
    h0 ∉ (Watcher.dispose (Watcher.watchNew w req resource opts)).disposed ∧
    (∀ w2, Watcher.unwatch (Watcher.watchNew w req resource opts) req = Except.ok w2 →
      h0 ∉ w2.disposed) := by
  have hmem : ∀ p ∈ (Watcher.watchNew w req resource opts).watches, p.2 ≠ h0 := by
    intro p hp
    rcases mem_mapSet hp with hcase | ⟨hpm, hpk⟩
    · rw [hcase]
      exact fun hc => hnew hc.symm
    · intro hc
      exact hpk (honly p hpm hc)
  refine ⟨rfl, mapGet_mapSet_self _ _ _, hmem, ?_, ?_⟩
  · intro hc
    rcases List.mem_append.mp hc with hc | hc
    · exact hnd hc
    · obtain ⟨p, hp, hsnd⟩ := List.mem_map.mp hc
      exact hmem p hp hsnd
  · intro w2 heq
    have hget : mapGet (Watcher.watchNew w req resource opts).watches req =
        some w.nextHandle := mapGet_mapSet_self _ _ _
    have heq2 : (Except.ok
        { watches := mapDelete (Watcher.watchNew w req resource opts).watches req,
          nextHandle := (Watcher.watchNew w req resource opts).nextHandle,
          disposed := (Watcher.watchNew w req resource opts).disposed ++ [w.nextHandle] } :
        Except ChanErr WatcherState) = Except.ok w2 := by
      rw [← heq]
      unfold Watcher.unwatch
      rw [hget]
    injection heq2 with hw2
    rw [← hw2]
    intro hc
    rcases List.mem_append.mp hc with hc | hc
    · exact hnd hc
    · exact hnew (by simpa using hc)

/-- Witness for C9: session `⟨[(1, 0)], 5, []⟩` holds handle 0 under request
id 1; re-watching request 1 installs handle 5 and orphans handle 0. -/
theorem rewatch_orphans_previous_handle_witness :
    (Watcher.watchNew ⟨[(1, 0)], 5, []⟩ 1 (uriFile "/f") ⟨false, []⟩).disposed = [] ∧
    mapGet (Watcher.watchNew ⟨[(1, 0)], 5, []⟩ 1 (uriFile "/f") ⟨false, []⟩).watches 1 =
      some 5 ∧
    (∀ p ∈ (Watcher.watchNew ⟨[(1, 0)], 5, []⟩ 1 (uriFile "/f") ⟨false, []⟩).watches,
      p.2 ≠ 0) ∧
    0 ∉ (Watcher.dispose
      (Watcher.watchNew ⟨[(1, 0)], 5, []⟩ 1 (uriFile "/f") ⟨false, []⟩)).disposed ∧
    (∀ w2, Watcher.unwatch
        (Watcher.watchNew ⟨[(1, 0)], 5, []⟩ 1 (uriFile "/f") ⟨false, []⟩) 1 =
          Except.ok w2 →
      0 ∉ w2.disposed) :=
  rewatch_orphans_previous_handle ⟨[(1, 0)], 5, []⟩ 1 (uriFile "/f") ⟨false, []⟩ 0
    (by decide) (by decide) (by decide) (by decide)

/-! ### Claim about the environment channel (C8) -/

/-- Claim C8: the `getDiagnosticInfo` command of the environment channel
always fails with the explicit `not implemented` error and never produces a
result, for every environment-data oracle and argument. -/
theorem getDiagnosticInfo_always_fails {EnvData : Type}
    (envData : String → Except String EnvData) (langArg : String) :
    envChannelCall envData "getDiagnosticInfo" langArg =
      Except.error "not implemented" ∧
    ∀ r, envChannelCall envData "getDiagnosticInfo" langArg ≠ Except.ok r := by
  refine ⟨rfl, ?_⟩
  intro r hc
  exact Except.noConfusion hc

/-! ### Claims about scan fault handling (C1) -/

theorem promiseAll_has_error {ε α : Type} (xs : List (Except ε α)) (e : ε)
    (h : Except.error e ∈ xs) : ∃ e2, promiseAll xs = Except.error e2 := by
  induction xs with
  | nil => simp at h
  | cons x rest ih =>
      cases x with
      | error f => exact ⟨f, rfl⟩
      | ok a =>
          have h2 : Except.error e ∈ rest := by
            rcases List.mem_cons.mp h with hx | hx
            · exact absurd hx (by simp)
            · exact hx
          obtain ⟨e2, he2⟩ := ih h2
          refine ⟨e2, ?_⟩
          show (promiseAll rest).map (fun l => a :: l) = Except.error e2
          rw [he2]
          rfl

/-- Counterexample to claim C1 as stated: the builtin root `b0` fails while
the three installed roots `i0`, `i1`, `i2` succeed, yet `scanExtensions`
rejects with the failing root's error — the exception propagates to the
caller and no merged result is produced (there is no per-task catch in
`scanMultiple`/`scanExtensions`; `Promise.all` rejects). -/
theorem scan_failure_not_isolated_counterexample :
    (fun (_ _ : Bool) (p : String) =>
        if p = "b0" then (Except.error "EACCES" : Except String (List IExtensionDescription))
        else Except.ok [{ identifier := p, locationFsPath := p,
                          isBuiltin := false, isUnderDevelopment := true }])
      true false "b0" = Except.error "EACCES" ∧
    (∀ p ∈ ["i0", "i1", "i2"],
      (fun (_ _ : Bool) (q : String) =>
        if q = "b0" then (Except.error "EACCES" : Except String (List IExtensionDescription))
        else Except.ok [{ identifier := q, locationFsPath := q,
                          isBuiltin := false, isUnderDevelopment := true }])
      false true p = Except.ok [{ identifier := p, locationFsPath := p,
                                  isBuiltin := false, isUnderDevelopment := true }]) ∧
    scanExtensions extensionIdToKey
      { builtinExtensionsPath := "b0", extraBuiltinExtensionPaths := [],
        extensionsPath := "i0", extraExtensionPaths := ["i1", "i2"] }
      (fun (_ _ : Bool) (p : String) =>
        if p = "b0" then (Except.error "EACCES" : Except String (List IExtensionDescription))
        else Except.ok [{ identifier := p, locationFsPath := p,
                          isBuiltin := false, isUnderDevelopment := true }]) =
      Except.error "EACCES" := by
  refine ⟨rfl, ?_, rfl⟩
  intro p hp
  fin_cases hp <;> rfl

/-- Claim C1 (amended): root-failure is not isolated — whenever the external
scanner rejects for any root path of either group, `scanExtensions` itself
rejects (`Promise.all` propagates the rejection), so the caller sees the
error and no merged result. -/
theorem scanExtensions_propagates_root_failure (toKey : String → String)
    (env : EnvPaths) (scanner : ScannerOracle)
    (h : (∃ p e, p ∈ builtinPaths env ∧ scanner true false p = Except.error e) ∨
         (∃ p e, p ∈ installedPaths env ∧ scanner false true p = Except.error e)) :
    ∃ e2, scanExtensions toKey env scanner = Except.error e2 := by
  unfold scanExtensions scanFromOutcomes
  rcases h with ⟨p, e, hp, he⟩ | ⟨p, e, hp, he⟩
  · have hmem : Except.error e ∈ (builtinPaths env).map (scanner true false) :=
      List.mem_map.mpr ⟨p, hp, he⟩
    obtain ⟨e2, he2⟩ := promiseAll_has_error _ e hmem
    rw [he2]
    exact ⟨e2, rfl⟩
  · have hmem : Except.error e ∈ (installedPaths env).map (scanner false true) :=
      List.mem_map.mpr ⟨p, hp, he⟩
    obtain ⟨e2, he2⟩ := promiseAll_has_error _ e hmem
    rw [he2]
    rcases hb : promiseAll ((builtinPaths env).map (scanner true false)) with eb | b
    · exact ⟨eb, rfl⟩
    · exact ⟨e2, rfl⟩

/-- Witness for the amended C1 at the counterexample's configuration. -/
theorem scanExtensions_propagates_root_failure_witness :
    ∃ e2, scanExtensions extensionIdToKey
      { builtinExtensionsPath := "b0", extraBuiltinExtensionPaths := [],
        extensionsPath := "i0", extraExtensionPaths := ["i1", "i2"] }
      (fun (_ _ : Bool) (p : String) =>
        if p = "b0" then (Except.error "EACCES" : Except String (List IExtensionDescription))
        else Except.ok [{ identifier := p, locationFsPath := p,
                          isBuiltin := false, isUnderDevelopment := true }]) =
      Except.error e2 :=
  scanExtensions_propagates_root_failure extensionIdToKey
    { builtinExtensionsPath := "b0", extraBuiltinExtensionPaths := [],
      extensionsPath := "i0", extraExtensionPaths := ["i1", "i2"] }
    (fun (_ _ : Bool) (p : String) =>
      if p = "b0" then (Except.error "EACCES" : Except String (List IExtensionDescription))
      else Except.ok [{ identifier := p, locationFsPath := p,
                        isBuiltin := false, isUnderDevelopment := true }])
    (Or.inl ⟨"b0", "EACCES", by decide, rfl⟩)

/-! ### Merge characterization (towards C2) -/

theorem getLast?_cons_match {α : Type} (a : α) (l : List α) :
    (a :: l).getLast? =
      match l.getLast? with
      | some e => some e
      | none => some a := by
  induction l generalizing a with
  | nil => rfl
  | cons b l2 ih =>
      rw [List.getLast?_cons_cons]
      have hsome : ∃ e, (b :: l2).getLast? = some e := by
        rw [ih b]
        rcases l2.getLast? with _ | e
        · exact ⟨b, rfl⟩
        · exact ⟨e, rfl⟩
      obtain ⟨e, he⟩ := hsome
      rw [he]

theorem lastWithKey_eq_getLast_filter (tk : String → String) (k : String)
    (l : List IExtensionDescription) :
    lastWithKey tk k l = (l.filter (fun e => decide (tk e.identifier = k))).getLast? := by
  induction l with
  | nil => rfl
  | cons d ds ih =>
      by_cases hd : tk d.identifier = k
      · rw [List.filter_cons_of_pos (by simpa using hd), getLast?_cons_match]
        simp only [lastWithKey]
        rw [ih, if_pos hd]
        rcases hX : (ds.filter (fun e => decide (tk e.identifier = k))).getLast? with _ | e
        · rw [hX]
        · rw [hX]
      · rw [List.filter_cons_of_neg (by simpa using hd)]
        simp only [lastWithKey]
        rw [ih, if_neg hd]
        rcases hX : (ds.filter (fun e => decide (tk e.identifier = k))).getLast? with _ | e
        · rw [hX]
        · rw [hX]

theorem mergeFold_mapGet (tk : String → String) (k : String) :
    ∀ (descs : List IExtensionDescription)
      (m : List (String × IExtensionDescription)) (w : List String),
      mapGet (descs.foldl (mergeStep tk) (m, w)).1 k =
        match lastWithKey tk k descs with
        | some e => some e
        | none => mapGet m k := by
  intro descs
  induction descs with
  | nil => intro m w; rfl
  | cons d ds ih =>
      intro m w
      rw [List.foldl_cons]
      by_cases hd : tk d.identifier = k
      · have step1 : (mergeStep tk (m, w) d).1 = mapSet m k d := by
          unfold mergeStep
          rw [hd]
        rcases hms : mergeStep tk (m, w) d with ⟨m2, w2⟩
        have hm2 : m2 = mapSet m k d := by rw [← step1, hms]
        rw [ih m2 w2, hm2]
        simp only [lastWithKey, hd, if_true]
        rcases lastWithKey tk k ds with _ | e
        · exact mapGet_mapSet_self m k d
        · rfl
      · have step1 : (mergeStep tk (m, w) d).1 = mapSet m (tk d.identifier) d := by
          unfold mergeStep
          rfl
        rcases hms : mergeStep tk (m, w) d with ⟨m2, w2⟩
        have hm2 : m2 = mapSet m (tk d.identifier) d := by rw [← step1, hms]
        rw [ih m2 w2, hm2]
        simp only [lastWithKey, hd, if_false]
        rcases lastWithKey tk k ds with _ | e
        · exact mapGet_mapSet_ne m (tk d.identifier) k d (fun hc => hd hc.symm)
        · rfl

theorem mergeFold_wellKeyed (tk : String → String) :
    ∀ (descs : List IExtensionDescription)
      (m : List (String × IExtensionDescription)) (w : List String),
      (∀ p ∈ m, p.1 = tk p.2.identifier) →
      ∀ p ∈ (descs.foldl (mergeStep tk) (m, w)).1, p.1 = tk p.2.identifier := by
  intro descs
  induction descs with
  | nil => intro m w h; exact h
  | cons d ds ih =>
      intro m w h
      rw [List.foldl_cons]
      rcases hms : mergeStep tk (m, w) d with ⟨m2, w2⟩
      have hm2 : m2 = mapSet m (tk d.identifier) d := by
        have : (mergeStep tk (m, w) d).1 = mapSet m (tk d.identifier) d := rfl
        rw [← this, hms]
      refine ih m2 w2 ?_
      intro p hp
      rw [hm2] at hp
      rcases mem_mapSet hp with hc | ⟨hc, _⟩
      · rw [hc]
      · exact h p hc

theorem mergeFold_keys_nodup (tk : String → String) :
    ∀ (descs : List IExtensionDescription)
      (m : List (String × IExtensionDescription)) (w : List String),
      (m.map Prod.fst).Nodup →
      ((descs.foldl (mergeStep tk) (m, w)).1.map Prod.fst).Nodup := by
  intro descs
  induction descs with
  | nil => intro m w h; exact h
  | cons d ds ih =>
      intro m w h
      rw [List.foldl_cons]
      rcases hms : mergeStep tk (m, w) d with ⟨m2, w2⟩
      have hm2 : m2 = mapSet m (tk d.identifier) d := by
        have : (mergeStep tk (m, w) d).1 = mapSet m (tk d.identifier) d := rfl
        rw [← this, hms]
      refine ih m2 w2 ?_
      rw [hm2]
      exact mapSet_keys_nodup _ _ h

theorem mergeFold_warn_mono (tk : String → String) :
    ∀ (descs : List IExtensionDescription)
      (m : List (String × IExtensionDescription)) (w : List String) (x : String),
      x ∈ w → x ∈ (descs.foldl (mergeStep tk) (m, w)).2 := by
  intro descs
  induction descs with
  | nil => intro m w x hx; exact hx
  | cons d ds ih =>
      intro m w x hx
      rw [List.foldl_cons]
      rcases hms : mergeStep tk (m, w) d with ⟨m2, w2⟩
      have hw2 : w2 = (mergeStep tk (m, w) d).2 := by rw [hms]
      have hcase : (mergeStep tk (m, w) d).2 = w ∨
          ∃ old : IExtensionDescription, (mergeStep tk (m, w) d).2 =
            w ++ [old.locationFsPath ++ " has been overridden " ++ d.locationFsPath] := by
        simp only [mergeStep]
        rcases hmg : mapGet m (tk d.identifier) with _ | old
        · left
          rfl
        · right
          exact ⟨old, rfl⟩
      refine ih m2 w2 x ?_
      rw [hw2]
      rcases hcase with hc | ⟨old, hc⟩
      · rw [hc]
        exact hx
      · rw [hc]
        exact List.mem_append_left _ hx

theorem mergeFold_warns_of_found (tk : String → String) (k : String)
    (db : IExtensionDescription) :
    ∀ (descs : List IExtensionDescription)
      (m : List (String × IExtensionDescription)) (w : List String)
      (di : IExtensionDescription) (rest : List IExtensionDescription),
      mapGet m k = some db →
      descs.filter (fun e => decide (tk e.identifier = k)) = di :: rest →
      (db.locationFsPath ++ " has been overridden " ++ di.locationFsPath) ∈
        (descs.foldl (mergeStep tk) (m, w)).2 := by
  intro descs
  induction descs with
  | nil =>
      intro m w di rest hm hf
      simp at hf
  | cons d ds ih =>
      intro m w di rest hm hf
      rw [List.foldl_cons]
      by_cases hd : tk d.identifier = k
      · rw [List.filter_cons_of_pos (by simpa using hd)] at hf
        obtain ⟨hdi, _⟩ := List.cons_eq_cons.mp hf
        have hstep : mergeStep tk (m, w) d =
            (mapSet m k d,
             w ++ [db.locationFsPath ++ " has been overridden " ++ d.locationFsPath]) := by
          simp only [mergeStep]
          rw [hd, hm]
        rw [hstep]
        refine mergeFold_warn_mono tk ds _ _ _ ?_
        rw [hdi]
        exact List.mem_append_right _ (by simp)
      · rw [List.filter_cons_of_neg (by simpa using hd)] at hf
        have hstep : mergeStep tk (m, w) d =
            (mapSet m (tk d.identifier) d, (mergeStep tk (m, w) d).2) := by
          simp only [mergeStep]
        rw [hstep]
        refine ih _ _ di rest ?_ hf
        rw [mapGet_mapSet_ne m (tk d.identifier) k d (fun hc => hd hc.symm)]
        exact hm

theorem mergeFold_warns_of_pair (tk : String → String) (k : String) :
    ∀ (descs : List IExtensionDescription)
      (m : List (String × IExtensionDescription)) (w : List String)
      (db di : IExtensionDescription) (rest : List IExtensionDescription),
      mapGet m k = none →
      descs.filter (fun e => decide (tk e.identifier = k)) = db :: di :: rest →
      (db.locationFsPath ++ " has been overridden " ++ di.locationFsPath) ∈
        (descs.foldl (mergeStep tk) (m, w)).2 := by
  intro descs
  induction descs with
  | nil =>
      intro m w db di rest hm hf
      simp at hf
  | cons d ds ih =>
      intro m w db di rest hm hf
      rw [List.foldl_cons]
      by_cases hd : tk d.identifier = k
      · rw [List.filter_cons_of_pos (by simpa using hd)] at hf
        obtain ⟨hdb, hftail⟩ := List.cons_eq_cons.mp hf
        have hstep : mergeStep tk (m, w) d = (mapSet m k d, w) := by
          simp only [mergeStep]
          rw [hd, hm]
        rw [hstep, hdb]
        refine mergeFold_warns_of_found tk k db ds _ _ di rest ?_ hftail
        exact mapGet_mapSet_self m k db
      · rw [List.filter_cons_of_neg (by simpa using hd)] at hf
        have hstep : mergeStep tk (m, w) d =
            (mapSet m (tk d.identifier) d, (mergeStep tk (m, w) d).2) := by
          simp only [mergeStep]
        rw [hstep]
        refine ih _ _ db di rest ?_ hf
        rw [mapGet_mapSet_ne m (tk d.identifier) k d (fun hc => hd hc.symm)]
        exact hm

theorem values_filter_of_mapGet (tk : String → String) (k : String) :
    ∀ (m : List (String × IExtensionDescription)) (di : IExtensionDescription),
      (∀ p ∈ m, p.1 = tk p.2.identifier) →
      (m.map Prod.fst).Nodup →
      mapGet m k = some di →
      (m.map Prod.snd).filter (fun e => decide (tk e.identifier = k)) = [di] := by
  intro m
  induction m with
  | nil =>
      intro di _ _ hget
      simp [mapGet] at hget
  | cons p m2 ih =>
      intro di hwk hnd hget
      have hpk : p.1 = tk p.2.identifier := hwk p (List.mem_cons_self _ _)
      by_cases hp : p.1 = k
      · have hpv : p.2 = di := by
          simp [mapGet, hp] at hget
          exact hget
        have hrest : ∀ q ∈ m2, q.1 ≠ k := by
          intro q hq hqk
          have : p.1 ∈ m2.map Prod.fst := by
            rw [hp, ← hqk]
            exact List.mem_map_of_mem _ hq
          exact (List.nodup_cons.mp hnd).1 this
        have hnone : (m2.map Prod.snd).filter (fun e => decide (tk e.identifier = k)) = [] := by
          rw [List.filter_eq_nil_iff]
          intro e he
          obtain ⟨q, hq, hqe⟩ := List.mem_map.mp he
          have := hwk q (List.mem_cons_of_mem _ hq)
          rw [hqe] at this
          simp only [decide_eq_true_eq]
          rw [← this]
          exact hrest q hq
        rw [List.map_cons, List.filter_cons_of_pos (by simp [← hpk, hp]), hnone, hpv]
      · have hget2 : mapGet m2 k = some di := by
          simpa [mapGet, hp] using hget
        rw [List.map_cons, List.filter_cons_of_neg (by simp [← hpk, hp])]
        exact ih di (fun q hq => hwk q (List.mem_cons_of_mem _ hq))
          (List.nodup_cons.mp hnd).2 hget2

theorem values_idmap_eq_keys (tk : String → String) :
    ∀ (m : List (String × IExtensionDescription)),
      (∀ p ∈ m, p.1 = tk p.2.identifier) →
      (m.map Prod.snd).map (fun e => tk e.identifier) = m.map Prod.fst := by
  intro m
  induction m with
  | nil => intro _; rfl
  | cons p m2 ih =>
      intro hwk
      have hpk : p.1 = tk p.2.identifier := hwk p (List.mem_cons_self _ _)
      simp only [List.map_cons]
      rw [ih (fun q hq => hwk q (List.mem_cons_of_mem _ hq)), ← hpk]

/-- Claim C2: when the flattened scan results contain exactly one builtin
descriptor `db` and, after it, one installed descriptor `di` sharing the
normalized identity `k`, the merged list returned by `scanExtensions`
contains exactly one descriptor for `k` — the installed one — and a warning
naming both install locations is logged; and in general the merged list
holds exactly one descriptor per normalized identity (the later-merged
descriptor winning). -/
theorem scanExtensions_installed_overrides_builtin (tk : String → String)
    (env : EnvPaths) (scanner : ScannerOracle)
    (b i : List (List IExtensionDescription)) (db di : IExtensionDescription)
    (k : String)
    (hb : promiseAll ((builtinPaths env).map (scanner true false)) = Except.ok b)
    (hi : promiseAll ((installedPaths env).map (scanner false true)) = Except.ok i)
    (_hdb : db ∈ b.flatten) (_hdi : di ∈ i.flatten)
    (hfilter : ((b ++ i).flatten).filter (fun e => decide (tk e.identifier = k)) =
      [db, di]) :
    ∃ exts warns,
      scanExtensions tk env scanner = Except.ok (exts, warns) ∧
      exts.filter (fun e => decide (tk e.identifier = k)) = [di] ∧
      (db.locationFsPath ++ " has been overridden " ++ di.locationFsPath) ∈ warns ∧
      (exts.map (fun e => tk e.identifier)).Nodup := by
  have hok : scanExtensions tk env scanner =
      Except.ok (mergeAll tk ((b ++ i).flatten)) := by
    unfold scanExtensions scanFromOutcomes
    rw [hb, hi]
  have hwk : ∀ p ∈ (((b ++ i).flatten).foldl (mergeStep tk) ([], [])).1,
      p.1 = tk p.2.identifier := by
    refine mergeFold_wellKeyed tk _ [] [] ?_
    intro p hp
    simp at hp
  have hnd : ((((b ++ i).flatten).foldl (mergeStep tk) ([], [])).1.map Prod.fst).Nodup := by
    refine mergeFold_keys_nodup tk _ [] [] ?_
    simp
  have hlast : lastWithKey tk k ((b ++ i).flatten) = some di := by
    rw [lastWithKey_eq_getLast_filter, hfilter]
    rfl
  have hget : mapGet (((b ++ i).flatten).foldl (mergeStep tk) ([], [])).1 k = some di := by
    rw [mergeFold_mapGet tk k _ [] [], hlast]
  refine ⟨(mergeAll tk ((b ++ i).flatten)).1, (mergeAll tk ((b ++ i).flatten)).2,
    by rw [hok], ?_, ?_, ?_⟩
  · show ((((b ++ i).flatten).foldl (mergeStep tk) ([], [])).1.map Prod.snd).filter
        (fun e => decide (tk e.identifier = k)) = [di]
    exact values_filter_of_mapGet tk k _ di hwk hnd hget
  · exact mergeFold_warns_of_pair tk k ((b ++ i).flatten) [] [] db di [] rfl hfilter
  · show (((((b ++ i).flatten).foldl (mergeStep tk) ([], [])).1.map Prod.snd).map
        (fun e => tk e.identifier)).Nodup
    rw [values_idmap_eq_keys tk _ hwk]
    exact hnd

/-- Witness for C2: one builtin root yielding `Pub.Ext` at `/builtin/ext`,
one installed root yielding `pub.ext` at `/installed/ext`; the merge keeps
only the installed descriptor and logs the override warning. -/
theorem scanExtensions_installed_overrides_builtin_witness :
    ∃ exts warns,
      scanExtensions extensionIdToKey
        { builtinExtensionsPath := "pb", extraBuiltinExtensionPaths := [],
          extensionsPath := "pi", extraExtensionPaths := [] }
        (fun isB _ _ =>
          if isB then
            Except.ok [{ identifier := "Pub.Ext", locationFsPath := "/builtin/ext",
                         isBuiltin := true, isUnderDevelopment := false }]
          else
            Except.ok [{ identifier := "pub.ext", locationFsPath := "/installed/ext",
                         isBuiltin := false, isUnderDevelopment := true }]) =
        Except.ok (exts, warns) ∧
      exts.filter (fun e => decide (extensionIdToKey e.identifier = "pub.ext")) =
        [{ identifier := "pub.ext", locationFsPath := "/installed/ext",
           isBuiltin := false, isUnderDevelopment := true }] ∧
      ("/builtin/ext" ++ " has been overridden " ++ "/installed/ext") ∈ warns ∧
      (exts.map (fun e => extensionIdToKey e.identifier)).Nodup :=
  scanExtensions_installed_overrides_builtin extensionIdToKey
    { builtinExtensionsPath := "pb", extraBuiltinExtensionPaths := [],
      extensionsPath := "pi", extraExtensionPaths := [] }
    (fun isB _ _ =>
      if isB then
        Except.ok [{ identifier := "Pub.Ext", locationFsPath := "/builtin/ext",
                     isBuiltin := true, isUnderDevelopment := false }]
      else
        Except.ok [{ identifier := "pub.ext", locationFsPath := "/installed/ext",
                     isBuiltin := false, isUnderDevelopment := true }])
    [[{ identifier := "Pub.Ext", locationFsPath := "/builtin/ext",
        isBuiltin := true, isUnderDevelopment := false }]]
    [[{ identifier := "pub.ext", locationFsPath := "/installed/ext",
        isBuiltin := false, isUnderDevelopment := true }]]
    { identifier := "Pub.Ext", locationFsPath := "/builtin/ext",
      isBuiltin := true, isUnderDevelopment := false }
    { identifier := "pub.ext", locationFsPath := "/installed/ext",
      isBuiltin := false, isUnderDevelopment := true }
    "pub.ext" rfl rfl (by decide) (by decide) (by decide)

/-! ### Schedule independence of the two-group fan-in (C3) -/

theorem foldl_set_length {α : Type} :
    ∀ (arrivals : List (Nat × α)) (acc : List (Option α)),
      (arrivals.foldl (fun acc p => acc.set p.1 (some p.2)) acc).length = acc.length := by
  intro arrivals
  induction arrivals with
  | nil => intro acc; rfl
  | cons q rest ih =>
      intro acc
      rw [List.foldl_cons, ih, List.length_set]

theorem foldl_set_getElem_not_mem {α : Type} :
    ∀ (arrivals : List (Nat × α)) (acc : List (Option α)) (i : Nat),
      (∀ p ∈ arrivals, p.1 ≠ i) →
      (arrivals.foldl (fun acc p => acc.set p.1 (some p.2)) acc)[i]? = acc[i]? := by
  intro arrivals
  induction arrivals with
  | nil => intro acc i _; rfl
  | cons q rest ih =>
      intro acc i h
      rw [List.foldl_cons, ih _ i (fun p hp => h p (List.mem_cons_of_mem _ hp))]
      exact List.getElem?_set_ne (h q (List.mem_cons_self _ _))

theorem foldl_set_getElem_mem {α : Type} :
    ∀ (arrivals : List (Nat × α)) (acc : List (Option α)) (j : Nat) (a : α),
      (arrivals.map Prod.fst).Nodup →
      (j, a) ∈ arrivals →
      j < acc.length →
      (arrivals.foldl (fun acc p => acc.set p.1 (some p.2)) acc)[j]? = some (some a) := by
  intro arrivals
  induction arrivals with
  | nil =>
      intro acc j a _ hmem _
      simp at hmem
  | cons q rest ih =>
      intro acc j a hnd hmem hj
      have hnd2 : (q.1 :: rest.map Prod.fst).Nodup := by simpa using hnd
      obtain ⟨hq, hrest⟩ := List.nodup_cons.mp hnd2
      rw [List.foldl_cons]
      rcases List.mem_cons.mp hmem with hc | hc
      · have hqj : q.1 = j := by rw [← hc]
        have hnone : ∀ p ∈ rest, p.1 ≠ j := by
          intro p hp hpj
          apply hq
          rw [hqj, ← hpj]
          exact List.mem_map_of_mem _ hp
        rw [foldl_set_getElem_not_mem rest _ j hnone]
        have hset : (acc.set q.1 (some q.2)) = acc.set j (some a) := by
          rw [← hc]
        rw [hset]
        exact List.getElem?_set_eq_of_lt (some a) hj
      · exact ih _ j a hrest hc (by rw [List.length_set]; exact hj)

theorem assemble_perm_enum {α : Type} (l : List α) (arrivals : List (Nat × α))
    (h : arrivals.Perm l.enum) : assemble l.length arrivals = l.map some := by
  have hnd : (arrivals.map Prod.fst).Nodup := by
    have hperm : (arrivals.map Prod.fst).Perm (l.enum.map Prod.fst) := h.map Prod.fst
    rw [List.enum_map_fst l] at hperm
    exact hperm.nodup_iff.mpr (List.nodup_range _)
  have hlen : (assemble l.length arrivals).length = l.length := by
    unfold assemble
    rw [foldl_set_length, List.length_replicate]
  apply List.ext_getElem?
  intro j
  by_cases hj : j < l.length
  · have hj2 : j < l.enum.length := by
      rw [List.enum_length]
      exact hj
    have hmem : (j, l[j]) ∈ l.enum := by
      have hg := List.getElem_enum l j hj2
      rw [← hg]
      exact List.getElem_mem hj2
    have hmem2 : (j, l[j]) ∈ arrivals := h.mem_iff.mpr hmem
    unfold assemble
    rw [foldl_set_getElem_mem arrivals _ j (l[j]) hnd hmem2
      (by rw [List.length_replicate]; exact hj)]
    rw [List.getElem?_map, List.getElem?_eq_getElem hj]
    rfl
  · rw [List.getElem?_eq_none (by rw [hlen]; omega),
      List.getElem?_eq_none (by rw [List.length_map]; omega)]

theorem allSome_map_some {α : Type} (l : List α) : allSome (l.map some) = some l := by
  induction l with
  | nil => rfl
  | cons a rest ih =>
      show (allSome (rest.map some)).map (fun l2 => a :: l2) = some (a :: rest)
      rw [ih]
      rfl

/-- Claim C3: the merge is deterministic and independent of scan-task
completion order.  Whatever the completion orders of the builtin-group and
installed-group tasks (any permutations `arrB`, `arrI` of the indexed
per-root outcomes), once every slot of the two `Promise.all`s is filled the
merge stage runs on the by-index outcome lists and returns exactly the
canonical `scanFromOutcomes` result — builtin group merged first in
root-list order, then the installed group — so equal per-root results give
an equal merged list regardless of scan latencies. -/
theorem scan_merge_schedule_independent (tk : String → String)
    (bres ires : List (Except String (List IExtensionDescription)))
    (arrB arrI : List (Nat × Except String (List IExtensionDescription)))
    (hB : arrB.Perm bres.enum) (hI : arrI.Perm ires.enum) :
    scanMergeFromSlots tk (assemble bres.length arrB) (assemble ires.length arrI) =
      some (scanFromOutcomes tk bres ires) := by
  rw [assemble_perm_enum bres arrB hB, assemble_perm_enum ires arrI hI]
  unfold scanMergeFromSlots
  rw [allSome_map_some, allSome_map_some]

/-- Witness for C3: two builtin roots completing in reversed order and one
installed root; the assembled merge equals the canonical in-order result. -/
theorem scan_merge_schedule_independent_witness :
    scanMergeFromSlots extensionIdToKey
      (assemble 2
        [(1, Except.ok [{ identifier := "b", locationFsPath := "/b1",
                          isBuiltin := true, isUnderDevelopment := false }]),
         (0, Except.ok [{ identifier := "a", locationFsPath := "/b0",
                          isBuiltin := true, isUnderDevelopment := false }])])
      (assemble 1
        [(0, Except.ok [{ identifier := "c", locationFsPath := "/i0",
                          isBuiltin := false, isUnderDevelopment := true }])]) =
      some (scanFromOutcomes extensionIdToKey
        [Except.ok [{ identifier := "a", locationFsPath := "/b0",
                      isBuiltin := true, isUnderDevelopment := false }],
         Except.ok [{ identifier := "b", locationFsPath := "/b1",
                      isBuiltin := true, isUnderDevelopment := false }]]
        [Except.ok [{ identifier := "c", locationFsPath := "/i0",
                      isBuiltin := false, isUnderDevelopment := true }]]) :=
  scan_merge_schedule_independent extensionIdToKey
    [Except.ok [{ identifier := "a", locationFsPath := "/b0",
                  isBuiltin := true, isUnderDevelopment := false }],
     Except.ok [{ identifier := "b", locationFsPath := "/b1",
                  isBuiltin := true, isUnderDevelopment := false }]]
    [Except.ok [{ identifier := "c", locationFsPath := "/i0",
                  isBuiltin := false, isUnderDevelopment := true }]]
    [(1, Except.ok [{ identifier := "b", locationFsPath := "/b1",
                      isBuiltin := true, isUnderDevelopment := false }]),
     (0, Except.ok [{ identifier := "a", locationFsPath := "/b0",
                      isBuiltin := true, isUnderDevelopment := false }])]
    [(0, Except.ok [{ identifier := "c", locationFsPath := "/i0",
                      isBuiltin := false, isUnderDevelopment := true }])]
    (by decide) (by decide)

end ChannelTS
